import Mathlib

/-!
Verification of the nolds `datasets.py` module (synthetic time-series
generators).  The Python source is shallowly embedded below:

* machine floats are modelled by exact rationals `ℚ` where the claims are
  about structure and exact values, by `Option ℝ` (with `none` playing the
  role of IEEE NaN) for the fBm pipeline where NaN propagation matters, and
  by an explicit binary64 round-to-nearest-even model `rnd53` where a claim
  is about bit-exact floating-point results;
* Python exceptions (`AssertionError` from `assert`, `IndexError` from an
  out-of-bounds numpy index) are modelled with `Except PyErr`;
* the LAPACK routines `np.linalg.eigh` / `np.linalg.inv` and the entropy
  source `np.random.randn` are external collaborators of the module and are
  injected as function parameters, constrained only through hypotheses on
  the shapes of their results.
-/

namespace NoldsDatasets

/-- Python exception model: `invalidParameter` is the `AssertionError` raised
by the `assert` in `fbm` (the spec's InvalidParameter), `indexError` a numpy
`IndexError` from an out-of-bounds scalar index. -/
inductive PyErr where
  | invalidParameter
  | indexError
deriving DecidableEq

/-- `np.linspace(a, b, num)`: `num` evenly spaced samples from `a` to `b`,
both endpoints included.  Over exact rationals the last sample
`a + (b - a) * (num - 1) / (num - 1)` equals `b`, matching numpy's explicitly
set endpoint. -/
def linspace (a b : ℚ) (num : ℕ) : List ℚ :=
  match num with
  | 0 => []
  | 1 => [a]
  | n + 2 => (List.range (n + 2)).map (fun i : ℕ => a + (b - a) * (i : ℚ) / ((n : ℚ) + 1))

/-- Slice assignment `l[s : s + d.length] = d` on a numpy array.  The uses in
`datasets.py` always satisfy `s + d.length ≤ l.length`. -/
def splice (l : List ℚ) (s : ℕ) (d : List ℚ) : List ℚ :=
  l.take s ++ d ++ l.drop (s + d.length)

/-- Scalar indexing `l[i]` of a numpy array with Python semantics: a negative
index `i` addresses `l[l.length + i]`; out-of-bounds access is an error
(`none`). -/
def pyGet (l : List ℚ) (i : ℤ) : Option ℚ :=
  if 0 ≤ i then l.get? i.toNat
  else if 0 ≤ i + l.length then l.get? (i + l.length).toNat else none

/-! ### Chaotic maps (`tent_map`, `logistic_map`), exact arithmetic -/

/-- One transition of the tent map: `x' = mu * x if x < 0.5 else mu * (1 - x)`
(`datasets.py` line 168). -/
def tentStep (mu x : ℚ) : ℚ := if x < 1/2 then mu * x else mu * (1 - x)

/-- `tent_map(x, steps, mu)`: the generator updates the state and then yields,
so exactly `steps` post-transition values are produced and the seed `x` itself
is never an element of the output by position. -/
def tent_map (x : ℚ) (steps : ℕ) (mu : ℚ) : List ℚ :=
  match steps with
  | 0 => []
  | s + 1 => tentStep mu x :: tent_map (tentStep mu x) s mu

/-- One transition of the logistic map: `x' = r * x * (1 - x)`
(`datasets.py` line 263). -/
def logisticStep (r x : ℚ) : ℚ := r * x * (1 - x)

/-- `logistic_map(x, steps, r)`: same generator shape as `tent_map`. -/
def logistic_map (x : ℚ) (steps : ℕ) (r : ℚ) : List ℚ :=
  match steps with
  | 0 => []
  | s + 1 => logisticStep r x :: logistic_map (logisticStep r x) s r

/-! ### A binary64 model for the bit-exact trajectory claim

`rnd53` is IEEE-754 round-to-nearest, ties-to-even at 53 significand bits,
for nonzero rationals in the normal binary64 range (the only values that
occur in the trajectories considered here; subnormals and overflow are out of
range for them).  Every arithmetic operation of a Python float expression is
correctly rounded, so the float trajectory of `tent_map` is obtained by
applying `rnd53` after each `*` and `-`. -/

/-- Fuel-driven floor of `log₂ x` for `1 ≤ x` (greatest `e` with `2^e ≤ x`). -/
def log2Above (fuel : ℕ) (x : ℚ) : ℤ :=
  match fuel with
  | 0 => 0
  | f + 1 => if x < 2 then 0 else 1 + log2Above f (x / 2)

/-- Fuel-driven floor of `log₂ x` for `0 < x < 1` (a negative exponent). -/
def log2Below (fuel : ℕ) (x : ℚ) : ℤ :=
  match fuel with
  | 0 => 0
  | f + 1 => if 1 ≤ 2 * x then -1 else -1 + log2Below f (2 * x)

/-- Floor of `log₂ x` for positive `x` in the binary64 exponent range. -/
def floorLog2 (x : ℚ) : ℤ :=
  if 1 ≤ x then log2Above 1100 x else log2Below 1100 x

/-- Round the fraction `p / q` (with `p ≥ 0 < q`) to the nearest integer,
ties to even. -/
def roundHalfEven (p q : ℤ) : ℤ :=
  let d := p / q
  let r := p % q
  if 2 * r < q then d
  else if q < 2 * r then d + 1
  else if d % 2 = 0 then d else d + 1

/-- Binary64 rounding of a positive rational in the normal range: scale by
`2 ^ (52 - e)` into `[2^52, 2^53)`, round to an integer significand, scale
back.  (The scaling acts on numerator and denominator so that concrete
instances evaluate by kernel reduction.) -/
def rnd53pos (x : ℚ) : ℚ :=
  let e := floorLog2 x
  if 0 ≤ 52 - e then
    let s : ℤ := ((2 ^ (52 - e).toNat : ℕ) : ℤ)
    Rat.divInt (roundHalfEven (x.num * s) x.den) s
  else
    let s : ℤ := ((2 ^ (e - 52).toNat : ℕ) : ℤ)
    Rat.divInt (roundHalfEven x.num (x.den * s) * s) 1

/-- Binary64 round-to-nearest-even of a rational in the normal range
(or zero). -/
def rnd53 (x : ℚ) : ℚ :=
  if x = 0 then 0
  else if x < 0 then - rnd53pos (-x) else rnd53pos x

/-- One transition of the tent map evaluated in binary64: each Python float
operation (`mu * x`; `1 - x` then `mu * _`) is correctly rounded. -/
def tentStepF (mu x : ℚ) : ℚ :=
  if x < 1/2 then rnd53 (mu * x) else rnd53 (mu * rnd53 (1 - x))

/-- `tent_map` under binary64 evaluation. -/
def tent_mapF (x : ℚ) (steps : ℕ) (mu : ℚ) : List ℚ :=
  match steps with
  | 0 => []
  | s + 1 => tentStepF mu x :: tent_mapF (tentStepF mu x) s mu

/-! ### `barabasi1991_fractal` -/

/-- `np.linspace(0, 1, m) * c * h + y0` — an ascending ramp block of the
Barabási subdivision. -/
def rampUp (c h y0 : ℚ) (m : ℕ) : List ℚ :=
  (linspace 0 1 m).map (fun t => t * c * h + y0)

/-- `np.linspace(1, 0, m) * c * h + y0` — a descending ramp block. -/
def rampDown (c h y0 : ℚ) (m : ℕ) : List ℚ :=
  (linspace 1 0 m).map (fun t => t * c * h + y0)

/-- The inner `b1991(x0, y0, w, h)` of `barabasi1991_fractal` for `h ≥ 0`
(`datasets.py` lines 312-322): quarter points by integer floor division, a
`w`-sample buffer filled by four ramp blocks, and the list
`[x0, x1, x2, x3, x4]` of subdivision points. -/
def b1991pos (b1 b2 : ℚ) (x0 w : ℕ) (y0 h : ℚ) : List ℚ × List ℕ :=
  let x1 := x0 + w / 4
  let x2 := x0 + w / 2
  let x3 := x2 + w / 4
  let x4 := x0 + w
  let data0 := List.replicate w (0 : ℚ)
  let data1 := splice data0 (x0 - x0) (rampUp b1 h y0 (x1 - x0))
  let data2 := splice data1 (x1 - x0) (rampDown b1 h y0 (x2 - x1))
  let data3 := splice data2 (x2 - x0) (rampUp b2 h y0 (x3 - x2))
  let data4 := splice data3 (x3 - x0) (rampUp (1 - b2) h (y0 + b2 * h) (x4 - x3))
  (data4, [x0, x1, x2, x3, x4])

/-- `b1991` with the negative-slope branch (`datasets.py` lines 308-311): for
`h < 0` the shape is computed for the mirrored segment (`y0 + h`, `-h`) and
the resulting values are reversed. -/
def b1991 (b1 b2 : ℚ) (x0 w : ℕ) (y0 h : ℚ) : List ℚ × List ℕ :=
  if h < 0 then
    let p := b1991pos b1 b2 x0 w (y0 + h) (-h)
    (p.1.reverse, p.2)
  else b1991pos b1 b2 x0 w y0 h

/-- One round of the outer loop of `barabasi1991_fractal` (the body of
`for x1, x2 in intervals`): for each interval read `fractal[x1]` and
`fractal[x2-1]` (in that evaluation order; either read can raise
`IndexError`), overwrite `fractal[x1:x2]` with the subdivided data, and
collect the four child intervals `zip(nxtp[:-1], nxtp[1:])`. -/
def barabasiRound (b1 b2 : ℚ) : List ℚ → List (ℕ × ℕ) →
    Except PyErr (List ℚ × List (ℕ × ℕ))
  | fractal, [] => .ok (fractal, [])
  | fractal, (x1, x2) :: rest =>
    match pyGet fractal (x1 : ℤ) with
    | none => .error .indexError
    | some y0 =>
      match pyGet fractal ((x2 : ℤ) - 1) with
      | none => .error .indexError
      | some ye =>
        let p := b1991 b1 b2 x1 (x2 - x1) y0 (ye - y0)
        match barabasiRound b1 b2 (splice fractal x1 p.1) rest with
        | .error e => .error e
        | .ok (f2, iv2) => .ok (f2, p.2.zip (p.2.drop 1) ++ iv2)

/-- The outer `for _ in range(iterations)` loop: `iterations` rounds starting
from a given buffer and interval list; a raised exception aborts the call. -/
def barabasiSteps (b1 b2 : ℚ) : ℕ → List ℚ → List (ℕ × ℕ) →
    Except PyErr (List ℚ × List (ℕ × ℕ))
  | 0, fractal, intervals => .ok (fractal, intervals)
  | n + 1, fractal, intervals =>
    match barabasiRound b1 b2 fractal intervals with
    | .error e => .error e
    | .ok (f2, iv2) => barabasiSteps b1 b2 n f2 iv2

/-- State of `barabasi1991_fractal(size, iterations, b1, b2)` after all
rounds: buffer initialised to `np.linspace(0, 1, size)` and interval list to
`[(0, size)]`. -/
def barabasiState (size iterations : ℕ) (b1 b2 : ℚ) :
    Except PyErr (List ℚ × List (ℕ × ℕ)) :=
  barabasiSteps b1 b2 iterations (linspace 0 1 size) [(0, size)]

/-- `barabasi1991_fractal(size, iterations, b1, b2)` (`datasets.py` lines
306-333): the final buffer of `barabasiState`.  (The stray debugging
`print(intervals)` in the source is I/O noise with no effect on the result.) -/
def barabasi1991_fractal (size iterations : ℕ) (b1 b2 : ℚ) :
    Except PyErr (List ℚ) :=
  (barabasiState size iterations b1 b2).map Prod.fst

/-- Value at index `i` of the buffer of a `barabasiState` result (`none` on a
raised exception or out of range). -/
def stGet (s : Except PyErr (List ℚ × List (ℕ × ℕ))) (i : ℕ) : Option ℚ :=
  match s with
  | .ok p => p.1.get? i
  | .error _ => none

/-- Interval list of a `barabasiState` result (`[]` on a raised exception). -/
def stIntervals (s : Except PyErr (List ℚ × List (ℕ × ℕ))) : List (ℕ × ℕ) :=
  match s with
  | .ok p => p.2
  | .error _ => []

/-- Length of the returned curve (`none` on a raised exception). -/
def exLen (s : Except PyErr (List ℚ)) : Option ℕ :=
  match s with
  | .ok l => some l.length
  | .error _ => none

/-- Whether a call returned normally. -/
def exIsOk (s : Except PyErr (List ℚ)) : Bool :=
  match s with
  | .ok _ => true
  | .error _ => false

/-- The exception raised by a call, if any. -/
def exErr (s : Except PyErr (List ℚ)) : Option PyErr :=
  match s with
  | .ok _ => none
  | .error e => some e

/-! ### Small-step traces for the determinism claim

`MapTrace f x n out` holds when `out` is a possible run of the generator
loop `repeat (x := f x; yield x)` for `n` steps from seed `x`; `BRun` likewise
describes a possible run of the outer loop of `barabasi1991_fractal`.  The
relations mirror the loops of the source; determinism is the statement that
each relation admits at most one trace from a given start. -/

/-- A possible emitted trace of the `tent_map` / `logistic_map` generator
loop: update the state with `f`, then yield the new state, `n` times. -/
inductive MapTrace (f : ℚ → ℚ) : ℚ → ℕ → List ℚ → Prop where
  | done (x : ℚ) : MapTrace f x 0 []
  | step (x : ℚ) (n : ℕ) (out : List ℚ) :
      MapTrace f (f x) n out → MapTrace f x (n + 1) (f x :: out)

/-- A possible outcome of running `n` rounds of the outer loop of
`barabasi1991_fractal` from a given buffer and interval list. -/
inductive BRun (b1 b2 : ℚ) :
    List ℚ → List (ℕ × ℕ) → ℕ → Except PyErr (List ℚ × List (ℕ × ℕ)) → Prop where
  | done (f : List ℚ) (iv : List (ℕ × ℕ)) : BRun b1 b2 f iv 0 (.ok (f, iv))
  | step (f : List ℚ) (iv : List (ℕ × ℕ)) (n : ℕ) (f2 : List ℚ)
      (iv2 : List (ℕ × ℕ)) (r : Except PyErr (List ℚ × List (ℕ × ℕ))) :
      barabasiRound b1 b2 f iv = .ok (f2, iv2) → BRun b1 b2 f2 iv2 n r →
      BRun b1 b2 f iv (n + 1) r
  | fail (f : List ℚ) (iv : List (ℕ × ℕ)) (n : ℕ) (e : PyErr) :
      barabasiRound b1 b2 f iv = .error e → BRun b1 b2 f iv (n + 1) (.error e)

/-! ### `fbm` and `fgn`

The fBm sampler is float linear algebra.  Values are modelled as `Option ℝ`
where `none` plays the role of IEEE NaN: every arithmetic operation
propagates `none`, and `np.sqrt` of a negative value produces `none`, exactly
as the float operations propagate NaN.  The external LAPACK routines
`np.linalg.eigh` and `np.linalg.inv` and the entropy source
`np.random.randn` are injected as function parameters (the spec itself
requires the random source to be injectable); theorems constrain them only
through hypotheses on the shapes of their results, which numpy guarantees. -/

/-- A binary64 value; `none` models NaN. -/
abbrev F := Option ℝ

/-- Float addition: NaN-propagating. -/
def fAdd (a b : F) : F :=
  match a, b with
  | some x, some y => some (x + y)
  | _, _ => none

/-- Float multiplication: NaN-propagating (IEEE `NaN * 0 = NaN`). -/
def fMul (a b : F) : F :=
  match a, b with
  | some x, some y => some (x * y)
  | _, _ => none

/-- Float subtraction: NaN-propagating. -/
def fSub (a b : F) : F :=
  match a, b with
  | some x, some y => some (x - y)
  | _, _ => none

/-- `np.sqrt` on a float: NaN (`none`) for negative input, since the real
square root of a negative number is not a float. -/
noncomputable def npSqrt (a : F) : F :=
  match a with
  | some x => if x < 0 then none else some (Real.sqrt x)
  | none => none

/-- Dot product of two float vectors (every index participates, so any NaN
entry of either factor makes the result NaN). -/
def dotF (xs ys : List F) : F :=
  (List.zipWith fMul xs ys).foldl fAdd (some 0)

/-- `np.dot(A, v)` for a matrix and a vector. -/
def matVec (A : List (List F)) (v : List F) : List F :=
  A.map (fun row => dotF row v)

/-- `np.dot(A, B)` for two matrices. -/
def matMul (A B : List (List F)) : List (List F) :=
  A.map (fun row => B.transpose.map (fun col => dotF row col))

/-- `np.diag(w)`: square matrix with `w` on the diagonal. -/
def diagM (w : List F) : List (List F) :=
  (List.range w.length).map (fun i =>
    (List.range w.length).map (fun j => if i = j then w.getD i none else some 0))

/-- The autocovariance `R(t, s) = 0.5 * (s^2H + t^2H - |t - s|^2H)` of
fractional Brownian motion (`datasets.py` lines 34-36; real powers). -/
noncomputable def Rcov (H : ℝ) (t s : ℕ) : ℝ :=
  (1/2) * ((s : ℝ) ^ (2 * H) + (t : ℝ) ^ (2 * H) - |(t : ℝ) - (s : ℝ)| ^ (2 * H))

/-- The covariance matrix `gamma = R(*np.mgrid[0:n, 0:n])`:
`gamma[t][s] = R(t, s)` (float entries, never NaN at this point). -/
noncomputable def gammaM (n : ℕ) (H : ℝ) : List (List F) :=
  (List.range n).map (fun t => (List.range n).map (fun s => some (Rcov H t s)))

/-- `fbm(n, H)` (`datasets.py` lines 10-43): `assert 0 < H < 1` (an
`AssertionError`, the spec's InvalidParameter, raised before anything is
computed), then `sigma = P . sqrt(diag(w)) . inv(P)` from the injected
eigendecomposition of `gamma`, and the correlated sample `sigma . v` from
the injected standard-normal draw `v = randn(n)`.  No clamping is applied to
the eigenvalues before `np.sqrt`. -/
noncomputable def fbm (n : ℕ) (H : ℝ)
    (eigh : List (List F) → List F × List (List F))
    (inv : List (List F) → List (List F))
    (randn : ℕ → List F) : Except PyErr (List F) :=
  if 0 < H ∧ H < 1 then
    let gamma := gammaM n H
    let wP := eigh gamma
    let L := diagM wP.1
    let sigma := matMul (matMul wP.2 (L.map (fun row => row.map npSqrt))) (inv wP.2)
    let v := randn n
    .ok (matVec sigma v)
  else .error .invalidParameter

/-- `np.diff`: first-order differences `a[i+1] - a[i]`. -/
def npDiff (l : List F) : List F :=
  List.zipWith fSub (l.drop 1) l

/-- `fgn(n, H)` (`datasets.py` lines 46-65): literally
`np.diff(fbm(n + 1, H))`, with no numeric logic of its own. -/
noncomputable def fgn (n : ℕ) (H : ℝ)
    (eigh : List (List F) → List F × List (List F))
    (inv : List (List F) → List (List F))
    (randn : ℕ → List F) : Except PyErr (List F) :=
  (fbm (n + 1) H eigh inv randn).map npDiff

/-- A concrete stand-in for `np.linalg.eigh` used to instantiate shape
hypotheses: all eigenvalues 1, eigenvector matrix of ones, with the correct
square shape. -/
def oneEigh (g : List (List F)) : List F × List (List F) :=
  (g.map (fun _ => some 1), g.map (fun _ => g.map (fun _ => some 1)))

/-- A concrete stand-in for `np.linalg.eigh` returning a negative
eigenvalue, as a slightly indefinite numerical eigendecomposition would. -/
noncomputable def negEigh (_ : List (List F)) : List F × List (List F) :=
  ([some (-(1/4))], [[some 1]])

/-- A concrete stand-in for `np.linalg.inv`. -/
def idInv (m : List (List F)) : List (List F) := m

/-- A concrete stand-in for `np.random.randn`: the right number of draws. -/
def oneRandn (m : ℕ) : List F := (List.range m).map (fun _ => some 1)

/-! ### Helper lemmas -/

theorem length_linspace (a b : ℚ) (m : ℕ) : (linspace a b m).length = m := by
  match m with
  | 0 => rfl
  | 1 => rfl
  | n + 2 => simp only [linspace, List.length_map, List.length_range]

theorem linspace_get_zero (a b : ℚ) (m : ℕ) (hm : 1 ≤ m) :
    (linspace a b m)[0]? = some a := by
  match m with
  | 1 => rfl
  | n + 2 =>
    rw [linspace, List.getElem?_map, List.getElem?_range (by omega : 0 < n + 2)]
    norm_num

theorem linspace_get_last (a b : ℚ) (m : ℕ) (hm : 2 ≤ m) :
    (linspace a b m)[m - 1]? = some b := by
  match m with
  | n + 2 =>
    rw [linspace, List.getElem?_map,
      List.getElem?_range (by omega : n + 2 - 1 < n + 2)]
    have hne : ((n : ℚ) + 1) ≠ 0 := by positivity
    have hv : a + (b - a) * ((n + 2 - 1 : ℕ) : ℚ) / ((n : ℚ) + 1) = b := by
      push_cast
      field_simp
    rw [Option.map_some', hv]

theorem length_splice (l d : List ℚ) (s : ℕ) (h : s + d.length ≤ l.length) :
    (splice l s d).length = l.length := by
  simp [splice]
  omega

theorem getElem?_splice (l d : List ℚ) (s i : ℕ) (h : s + d.length ≤ l.length) :
    (splice l s d)[i]? =
      if i < s then l[i]?
      else if i < s + d.length then d[i - s]?
      else l[i]? := by
  have htake : (l.take s).length = s := by simp; omega
  by_cases h1 : i < s
  · rw [splice, List.append_assoc, List.getElem?_append_left (by omega),
      List.getElem?_take_of_lt h1, if_pos h1]
  · rw [splice, List.append_assoc, List.getElem?_append_right (by omega), if_neg h1]
    by_cases h2 : i < s + d.length
    · rw [List.getElem?_append_left (by omega), if_pos h2, htake]
    · rw [List.getElem?_append_right (by simp [htake]; omega), if_neg h2]
      rw [List.getElem?_drop]
      congr 1
      simp [htake]
      omega

theorem rampUp_length (c h y0 : ℚ) (m : ℕ) : (rampUp c h y0 m).length = m := by
  simp [rampUp, length_linspace]

theorem rampDown_length (c h y0 : ℚ) (m : ℕ) : (rampDown c h y0 m).length = m := by
  simp [rampDown, length_linspace]

theorem rampUp_get_zero (c h y0 : ℚ) (m : ℕ) (hm : 1 ≤ m) :
    (rampUp c h y0 m)[0]? = some y0 := by
  simp only [rampUp, List.getElem?_map, linspace_get_zero 0 1 m hm]
  norm_num

theorem rampUp_get_last (c h y0 : ℚ) (m : ℕ) (hm : 2 ≤ m) :
    (rampUp c h y0 m)[m - 1]? = some (c * h + y0) := by
  simp only [rampUp, List.getElem?_map, linspace_get_last 0 1 m hm]
  norm_num

theorem b1991pos_data (b1 b2 : ℚ) (x0 w : ℕ) (y0 h : ℚ) :
    (b1991pos b1 b2 x0 w y0 h).1 =
      splice (splice (splice (splice (List.replicate w (0 : ℚ))
        0 (rampUp b1 h y0 (w / 4)))
        (w / 4) (rampDown b1 h y0 (w / 2 - w / 4)))
        (w / 2) (rampUp b2 h y0 (w / 4)))
        (w / 2 + w / 4) (rampUp (1 - b2) h (y0 + b2 * h) (w - (w / 2 + w / 4))) := by
  simp only [b1991pos, Nat.add_assoc, Nat.add_sub_add_left, Nat.add_sub_cancel_left,
    Nat.sub_self]

theorem b1991pos_nxtp (b1 b2 : ℚ) (x0 w : ℕ) (y0 h : ℚ) :
    (b1991pos b1 b2 x0 w y0 h).2 =
      [x0, x0 + w / 4, x0 + w / 2, x0 + w / 2 + w / 4, x0 + w] := rfl

theorem b1991_nxtp (b1 b2 : ℚ) (x0 w : ℕ) (y0 h : ℚ) :
    (b1991 b1 b2 x0 w y0 h).2 =
      [x0, x0 + w / 4, x0 + w / 2, x0 + w / 2 + w / 4, x0 + w] := by
  rw [b1991]
  split <;> rfl

theorem b1991pos_chain_lengths (b1 b2 : ℚ) (w : ℕ) (y0 h : ℚ) :
    (splice (List.replicate w (0 : ℚ)) 0 (rampUp b1 h y0 (w / 4))).length = w
    ∧ (splice (splice (List.replicate w (0 : ℚ)) 0 (rampUp b1 h y0 (w / 4)))
        (w / 4) (rampDown b1 h y0 (w / 2 - w / 4))).length = w
    ∧ (splice (splice (splice (List.replicate w (0 : ℚ)) 0 (rampUp b1 h y0 (w / 4)))
        (w / 4) (rampDown b1 h y0 (w / 2 - w / 4)))
        (w / 2) (rampUp b2 h y0 (w / 4))).length = w := by
  have l1 : (splice (List.replicate w (0 : ℚ)) 0 (rampUp b1 h y0 (w / 4))).length = w := by
    rw [length_splice _ _ _ (by simp [rampUp_length]; omega)]
    simp
  have l2 : (splice (splice (List.replicate w (0 : ℚ)) 0 (rampUp b1 h y0 (w / 4)))
      (w / 4) (rampDown b1 h y0 (w / 2 - w / 4))).length = w := by
    rw [length_splice _ _ _ (by rw [rampDown_length, l1]; omega), l1]
  have l3 : (splice (splice (splice (List.replicate w (0 : ℚ))
      0 (rampUp b1 h y0 (w / 4)))
      (w / 4) (rampDown b1 h y0 (w / 2 - w / 4)))
      (w / 2) (rampUp b2 h y0 (w / 4))).length = w := by
    rw [length_splice _ _ _ (by rw [rampUp_length, l2]; omega), l2]
  exact ⟨l1, l2, l3⟩

theorem b1991pos_length (b1 b2 : ℚ) (x0 w : ℕ) (y0 h : ℚ) :
    (b1991pos b1 b2 x0 w y0 h).1.length = w := by
  rw [b1991pos_data]
  have l3 := (b1991pos_chain_lengths b1 b2 w y0 h).2.2
  rw [length_splice _ _ _ (by rw [rampUp_length, l3]; omega), l3]

theorem b1991_length (b1 b2 : ℚ) (x0 w : ℕ) (y0 h : ℚ) :
    (b1991 b1 b2 x0 w y0 h).1.length = w := by
  rw [b1991]
  split
  · simp [b1991pos_length]
  · exact b1991pos_length ..

theorem b1991pos_get_zero (b1 b2 : ℚ) (x0 w : ℕ) (y0 h : ℚ) (hw : 4 ≤ w) :
    (b1991pos b1 b2 x0 w y0 h).1[0]? = some y0 := by
  obtain ⟨l1, l2, l3⟩ := b1991pos_chain_lengths b1 b2 w y0 h
  rw [b1991pos_data]
  rw [getElem?_splice _ _ _ _ (by rw [rampUp_length, l3]; omega), if_pos (by omega)]
  rw [getElem?_splice _ _ _ _ (by rw [rampUp_length, l2]; omega), if_pos (by omega)]
  rw [getElem?_splice _ _ _ _ (by rw [rampDown_length, l1]; omega), if_pos (by omega)]
  rw [getElem?_splice _ _ _ _ (by simp [rampUp_length]; omega), if_neg (by omega),
    if_pos (by rw [rampUp_length]; omega)]
  simpa using rampUp_get_zero b1 h y0 (w / 4) (by omega)

theorem b1991pos_get_last (b1 b2 : ℚ) (x0 w : ℕ) (y0 h : ℚ) (hw : 5 ≤ w) :
    (b1991pos b1 b2 x0 w y0 h).1[w - 1]? = some (y0 + h) := by
  have l3 := (b1991pos_chain_lengths b1 b2 w y0 h).2.2
  rw [b1991pos_data]
  rw [getElem?_splice _ _ _ _ (by rw [rampUp_length, l3]; omega), if_neg (by omega),
    if_pos (by rw [rampUp_length]; omega)]
  have hi : w - 1 - (w / 2 + w / 4) = (w - (w / 2 + w / 4)) - 1 := by omega
  rw [hi, rampUp_get_last _ _ _ _ (by omega)]
  exact congrArg some (by ring)

theorem b1991_get_zero (b1 b2 : ℚ) (x0 w : ℕ) (y0 h : ℚ) (hw : 5 ≤ w) :
    (b1991 b1 b2 x0 w y0 h).1[0]? = some y0 := by
  rw [b1991]
  split
  · rename_i hneg
    have hlen := b1991pos_length b1 b2 x0 w (y0 + h) (-h)
    rw [List.getElem?_reverse (by rw [hlen]; omega), hlen]
    have := b1991pos_get_last b1 b2 x0 w (y0 + h) (-h) hw
    rw [show w - 1 - 0 = w - 1 by omega, this]
    exact congrArg some (by ring)
  · exact b1991pos_get_zero b1 b2 x0 w y0 h (by omega)

theorem b1991_get_last (b1 b2 : ℚ) (x0 w : ℕ) (y0 h : ℚ) (hw : 5 ≤ w) :
    (b1991 b1 b2 x0 w y0 h).1[w - 1]? = some (y0 + h) := by
  rw [b1991]
  split
  · rename_i hneg
    have hlen := b1991pos_length b1 b2 x0 w (y0 + h) (-h)
    rw [List.getElem?_reverse (by rw [hlen]; omega), hlen]
    have := b1991pos_get_zero b1 b2 x0 w (y0 + h) (-h) (by omega)
    rw [show w - 1 - (w - 1) = 0 by omega, this]
  · exact b1991pos_get_last b1 b2 x0 w y0 h hw

theorem b1991pos_width4 (b1 b2 : ℚ) (x0 : ℕ) (y0 h : ℚ) :
    (b1991pos b1 b2 x0 4 y0 h).1 = [y0, b1 * h + y0, y0, y0 + b2 * h] := by
  rw [b1991pos_data]
  show splice (splice (splice (splice (List.replicate 4 (0 : ℚ))
      0 (rampUp b1 h y0 1)) 1 (rampDown b1 h y0 1)) 2 (rampUp b2 h y0 1))
      3 (rampUp (1 - b2) h (y0 + b2 * h) 1) = _
  simp only [rampUp, rampDown, linspace, List.map_cons, List.map_nil,
    List.replicate, splice, List.take, List.drop, List.cons_append,
    List.nil_append, List.length_cons, List.length_nil]
  norm_num

theorem b1991_width4_asc (b1 b2 : ℚ) (x0 : ℕ) (y0 h : ℚ) (hh : 0 ≤ h) :
    (b1991 b1 b2 x0 4 y0 h).1 = [y0, b1 * h + y0, y0, y0 + b2 * h] := by
  rw [b1991, if_neg (not_lt.mpr hh)]
  exact b1991pos_width4 b1 b2 x0 y0 h

theorem b1991_width4_desc (b1 b2 : ℚ) (x0 : ℕ) (y0 h : ℚ) (hh : h < 0) :
    (b1991 b1 b2 x0 4 y0 h).1 =
      [y0 + (1 - b2) * h, y0 + h, b1 * -h + (y0 + h), y0 + h] := by
  rw [b1991, if_pos hh]
  show (b1991pos b1 b2 x0 4 (y0 + h) (-h)).1.reverse = _
  rw [b1991pos_width4]
  show [(y0 + h) + b2 * -h, y0 + h, b1 * -h + (y0 + h), y0 + h] = _
  have he : (y0 + h) + b2 * -h = y0 + (1 - b2) * h := by ring
  rw [he]

/-! ### Trajectory lemmas for the chaotic maps -/

theorem tent_map_length (x mu : ℚ) (steps : ℕ) :
    (tent_map x steps mu).length = steps := by
  induction steps generalizing x with
  | zero => rfl
  | succ s ih => simp [tent_map, ih]

theorem logistic_map_length (x r : ℚ) (steps : ℕ) :
    (logistic_map x steps r).length = steps := by
  induction steps generalizing x with
  | zero => rfl
  | succ s ih => simp [logistic_map, ih]

theorem tent_map_getElem (x mu : ℚ) (steps i : ℕ) (hi : i < steps) :
    (tent_map x steps mu)[i]? = some ((tentStep mu)^[i + 1] x) := by
  induction steps generalizing x i with
  | zero => omega
  | succ s ih =>
    match i with
    | 0 => simp [tent_map]
    | j + 1 =>
      rw [tent_map, List.getElem?_cons_succ, ih (tentStep mu x) j (by omega)]
      rfl

theorem logistic_map_getElem (x r : ℚ) (steps i : ℕ) (hi : i < steps) :
    (logistic_map x steps r)[i]? = some ((logisticStep r)^[i + 1] x) := by
  induction steps generalizing x i with
  | zero => omega
  | succ s ih =>
    match i with
    | 0 => simp [logistic_map]
    | j + 1 =>
      rw [logistic_map, List.getElem?_cons_succ, ih (logisticStep r x) j (by omega)]
      rfl

/-! ### Determinism of the generator loops -/

theorem MapTrace_det (f : ℚ → ℚ) (x : ℚ) (n : ℕ) (o1 o2 : List ℚ)
    (h1 : MapTrace f x n o1) (h2 : MapTrace f x n o2) : o1 = o2 := by
  induction h1 generalizing o2 with
  | done x => cases h2; rfl
  | step x n out _ ih =>
    cases h2 with
    | step _ _ out2 h2tail => rw [ih out2 h2tail]

theorem tent_map_trace (x mu : ℚ) (steps : ℕ) :
    MapTrace (tentStep mu) x steps (tent_map x steps mu) := by
  induction steps generalizing x with
  | zero => exact .done x
  | succ s ih => exact .step x s _ (ih (tentStep mu x))

theorem logistic_map_trace (x r : ℚ) (steps : ℕ) :
    MapTrace (logisticStep r) x steps (logistic_map x steps r) := by
  induction steps generalizing x with
  | zero => exact .done x
  | succ s ih => exact .step x s _ (ih (logisticStep r x))

theorem BRun_det (b1 b2 : ℚ) (f : List ℚ) (iv : List (ℕ × ℕ)) (n : ℕ)
    (r1 r2 : Except PyErr (List ℚ × List (ℕ × ℕ)))
    (h1 : BRun b1 b2 f iv n r1) (h2 : BRun b1 b2 f iv n r2) : r1 = r2 := by
  induction h1 generalizing r2 with
  | done f iv => cases h2; rfl
  | step f iv n f2 iv2 r hr _ ih =>
    cases h2 with
    | step _ _ _ f2b iv2b rb hrb htailb =>
      rw [hr] at hrb
      injection hrb with hp
      injection hp with hf hi
      subst hf
      subst hi
      exact ih _ htailb
    | fail _ _ _ e he => rw [hr] at he; cases he
  | fail f iv n e he =>
    cases h2 with
    | step _ _ _ f2b iv2b rb hrb _ => rw [he] at hrb; cases hrb
    | fail _ _ _ eb heb =>
      rw [he] at heb
      injection heb with hp
      rw [hp]

theorem barabasiSteps_run (b1 b2 : ℚ) (n : ℕ) (f : List ℚ) (iv : List (ℕ × ℕ)) :
    BRun b1 b2 f iv n (barabasiSteps b1 b2 n f iv) := by
  induction n generalizing f iv with
  | zero => exact .done f iv
  | succ m ih =>
    cases hr : barabasiRound b1 b2 f iv with
    | error e =>
      rw [show barabasiSteps b1 b2 (m + 1) f iv = .error e by
        rw [barabasiSteps, hr]]
      exact .fail f iv m e hr
    | ok p =>
      obtain ⟨f2, iv2⟩ := p
      rw [show barabasiSteps b1 b2 (m + 1) f iv = barabasiSteps b1 b2 m f2 iv2 by
        rw [barabasiSteps, hr]]
      exact .step f iv m f2 iv2 _ hr (ih f2 iv2)

/-! ### Shape lemmas for the fBm pipeline -/

theorem gammaM_length (n : ℕ) (H : ℝ) : (gammaM n H).length = n := by
  simp [gammaM]

theorem matMul_length (A B : List (List F)) : (matMul A B).length = A.length := by
  simp [matMul]

theorem matVec_length (A : List (List F)) (v : List F) :
    (matVec A v).length = A.length := by
  simp [matVec]

theorem npDiff_length (l : List F) : (npDiff l).length = l.length - 1 := by
  simp [npDiff]

theorem fbm_of_valid (n : ℕ) (H : ℝ)
    (eigh : List (List F) → List F × List (List F))
    (inv : List (List F) → List (List F)) (randn : ℕ → List F)
    (h0 : 0 < H) (h1 : H < 1) :
    fbm n H eigh inv randn =
      .ok (matVec (matMul (matMul (eigh (gammaM n H)).2
        ((diagM (eigh (gammaM n H)).1).map (fun row => row.map npSqrt)))
        (inv (eigh (gammaM n H)).2)) (randn n)) := by
  rw [fbm, if_pos ⟨h0, h1⟩]

theorem fbm_ok_length (n : ℕ) (H : ℝ)
    (eigh : List (List F) → List F × List (List F))
    (inv : List (List F) → List (List F)) (randn : ℕ → List F)
    (hP : (eigh (gammaM n H)).2.length = n) (h0 : 0 < H) (h1 : H < 1) :
    ∃ l, fbm n H eigh inv randn = .ok l ∧ l.length = n :=
  ⟨_, fbm_of_valid n H eigh inv randn h0 h1,
    by rw [matVec_length, matMul_length, matMul_length, hP]⟩

theorem fbm_of_invalid (n : ℕ) (H : ℝ)
    (eigh : List (List F) → List F × List (List F))
    (inv : List (List F) → List (List F)) (randn : ℕ → List F)
    (hH : H ≤ 0 ∨ 1 ≤ H) :
    fbm n H eigh inv randn = .error .invalidParameter := by
  rw [fbm, if_neg]
  rintro ⟨a, b⟩
  rcases hH with h | h <;> linarith

/-! ### Claim theorems -/

unseal Rat.add Rat.mul Rat.inv Rat.sub in
/-- C1 counterexample: `barabasi1991_fractal(8, 2, 0.8, 0.5)` asks for more
subdivision rounds than `size` supports — the second round works on segments
of width 2 (< 4), e.g. `(0, 2)` — yet the call returns normally instead of
failing with a DegenerateGeometry error, refuting the claim. -/
theorem C1_counterexample :
    ((0, 2) ∈ stIntervals (barabasiState 8 1 (4/5) (1/2)))
    ∧ exIsOk (barabasi1991_fractal 8 2 (4/5) (1/2)) = true := by decide

unseal Rat.add Rat.mul Rat.inv Rat.sub in
/-- C1 (amended): `barabasi1991_fractal` performs no width check at all: with
`size = 8`, `iterations = 2` it silently returns a full size-8 curve, and a
width-2 segment is subdivided with coincident quarter points `[0,0,1,1,2]`
(the degenerate geometry is written, not rejected). -/
theorem C1_no_degenerate_check :
    exLen (barabasi1991_fractal 8 2 (4/5) (1/2)) = some 8
    ∧ (b1991pos (4/5) (1/2) 0 2 0 1).2 = [0, 0, 1, 1, 2] := by decide

unseal Rat.add Rat.mul Rat.inv Rat.sub in
/-- C3 counterexample: `barabasi1991_fractal(0, 1, 0.8, 0.5)` does not return
an empty sequence — it raises `IndexError` on reading `fractal[0]` from the
empty baseline buffer, refuting the claim for `iterations ≥ 1`. -/
theorem C3_counterexample :
    exErr (barabasi1991_fractal 0 1 (4/5) (1/2)) = some PyErr.indexError := by decide

/-- C3 (amended): `tent_map` and `logistic_map` return an empty sequence for
`steps = 0`, and `barabasi1991_fractal(0, 0)` returns an empty sequence, but
`barabasi1991_fractal(0, iterations)` with `iterations ≥ 1` raises
`IndexError` instead. -/
theorem C3_empty_inputs (x mu r b1 b2 : ℚ) (iters : ℕ) :
    tent_map x 0 mu = []
    ∧ logistic_map x 0 r = []
    ∧ barabasi1991_fractal 0 0 b1 b2 = .ok []
    ∧ barabasi1991_fractal 0 (iters + 1) b1 b2 = .error .indexError :=
  ⟨rfl, rfl, rfl, rfl⟩

/-- C6: for every starting point, every number of steps and every parameter,
`tent_map` and `logistic_map` produce exactly `steps` elements, and the
element at position `i` is the `(i+1)`-st iterate of the transition function
applied to the seed — only post-transition states are emitted, never the
seed `x0` itself (position 0 already holds the first transition result). -/
theorem C6_map_trajectories (x mu r : ℚ) (steps : ℕ) :
    (tent_map x steps mu).length = steps
    ∧ (logistic_map x steps r).length = steps
    ∧ (∀ i, i < steps → (tent_map x steps mu)[i]? = some ((tentStep mu)^[i + 1] x))
    ∧ (∀ i, i < steps → (logistic_map x steps r)[i]? = some ((logisticStep r)^[i + 1] x)) :=
  ⟨tent_map_length x mu steps, logistic_map_length x r steps,
    fun i hi => tent_map_getElem x mu steps i hi,
    fun i hi => logistic_map_getElem x r steps i hi⟩

/-- Witness for C6 at `x0 = 1/3`, `steps = 2`, `mu = 2`, `r = 4`, `i = 1`. -/
theorem C6_witness :
    (tent_map (1/3) 2 2)[1]? = some ((tentStep 2)^[2] (1/3))
    ∧ (logistic_map (1/3) 2 4)[1]? = some ((logisticStep 4)^[2] (1/3)) :=
  ⟨(C6_map_trajectories (1/3) 2 4 2).2.2.1 1 (by omega),
    (C6_map_trajectories (1/3) 2 4 2).2.2.2 1 (by omega)⟩

unseal Rat.add Rat.mul Rat.inv Rat.sub in
/-- C7 counterexample: in `barabasi1991_fractal(16, 2, 0.8, 0.5)` the segment
`(0, 4)` of the second round has width exactly 4; subdividing it REPLACES the
value at its own right endpoint sample (index 3): 4/5 before the round,
2/5 = y0 + b2*h after, because the final one-sample ramp starts at its
bottom — so endpoint values are not always inherited from the parent. -/
theorem C7_counterexample :
    ((0, 4) ∈ stIntervals (barabasiState 16 1 (4/5) (1/2)))
    ∧ stGet (barabasiState 16 1 (4/5) (1/2)) 3 = some (4/5)
    ∧ stGet (barabasiState 16 2 (4/5) (1/2)) 3 = some (2/5) := by decide

unseal Rat.add Rat.mul Rat.inv Rat.sub in
/-- C7 (amended): for every segment of width ≥ 5 (widths < 4 violate the
spec's own precondition) the subdivided data of `b1991` keeps the left
endpoint value `y0` and the right endpoint value `y0 + h` exactly, in both
slope branches.  A segment of width exactly 4 has exactly one endpoint
sample altered by its own subdivision, and which one depends on the slope:
for `h ≥ 0` the left endpoint keeps `y0` while the right endpoint value is
replaced by `y0 + b2*h` (the final one-sample ramp starts at its bottom);
for `h < 0` the mirror-then-reverse branch preserves the right endpoint
value `y0 + h` and instead replaces the left endpoint value with
`y0 + (1-b2)*h`.  Both width-4 cases occur in the run the counterexample
analyses, `barabasi1991_fractal(16, 2, 0.8, 0.5)`: the descending segment
`(4, 8)` ends round 2 with index 4 = 2/5 (left replaced, was 4/5) and
index 7 = 0 (right preserved).  And the concrete instance
`barabasi1991_fractal(16, 1, b1=0.8, b2=0.5)` holds exactly: the first and
last outputs equal the straight-line endpoints 0 and 1 and the value at the
first quarter point (index 4) equals `y0 + b1*h = 4/5`. -/
theorem C7_endpoint_inheritance (b1 b2 y0 h : ℚ) (x0 w : ℕ) (hw : 5 ≤ w) :
    (b1991 b1 b2 x0 w y0 h).1[0]? = some y0
    ∧ (b1991 b1 b2 x0 w y0 h).1[w - 1]? = some (y0 + h)
    ∧ (0 ≤ h → (b1991 b1 b2 x0 4 y0 h).1[0]? = some y0
        ∧ (b1991 b1 b2 x0 4 y0 h).1[3]? = some (y0 + b2 * h))
    ∧ (h < 0 → (b1991 b1 b2 x0 4 y0 h).1[0]? = some (y0 + (1 - b2) * h)
        ∧ (b1991 b1 b2 x0 4 y0 h).1[3]? = some (y0 + h))
    ∧ stGet (barabasiState 16 2 (4/5) (1/2)) 4 = some (2/5)
    ∧ stGet (barabasiState 16 2 (4/5) (1/2)) 7 = some 0
    ∧ stGet (barabasiState 16 1 (4/5) (1/2)) 0 = some 0
    ∧ stGet (barabasiState 16 1 (4/5) (1/2)) 15 = some 1
    ∧ stGet (barabasiState 16 1 (4/5) (1/2)) 4 = some (4/5) :=
  ⟨b1991_get_zero b1 b2 x0 w y0 h hw, b1991_get_last b1 b2 x0 w y0 h hw,
    fun hh => by rw [b1991_width4_asc b1 b2 x0 y0 h hh]; exact ⟨rfl, rfl⟩,
    fun hh => by rw [b1991_width4_desc b1 b2 x0 y0 h hh]; exact ⟨rfl, rfl⟩,
    by decide, by decide, by decide, by decide, by decide⟩

/-- Witness for C7 (amended) at `b1 = 4/5`, `b2 = 1/2`, `y0 = 0`, `h = 1`,
`x0 = 0`, `w = 5`. -/
theorem C7_witness :
    (b1991 (4/5) (1/2) 0 5 0 1).1[0]? = some 0
    ∧ (b1991 (4/5) (1/2) 0 5 0 1).1[5 - 1]? = some (0 + 1) :=
  ⟨(C7_endpoint_inheritance (4/5) (1/2) 0 1 0 5 (by omega)).1,
    (C7_endpoint_inheritance (4/5) (1/2) 0 1 0 5 (by omega)).2.1⟩

unseal Rat.add Rat.mul Rat.inv Rat.sub in
/-- C8 counterexample: under binary64 floating-point evaluation (the `rnd53`
round-to-nearest-even model; Python floats are binary64), `tent_map(0.1, 5,
mu=2)` does NOT produce the doubles of the literals 0.2, 0.4, 0.8, 0.4, 0.8:
the fourth value is `2*(1 - double(0.8)) = 0.39999999999999991`, one ulp
below `double(0.4)`, and the fifth is `0.79999999999999982`. -/
theorem C8_counterexample :
    tent_mapF (rnd53 (1/10)) 5 2 ≠
      [rnd53 (1/5), rnd53 (2/5), rnd53 (4/5), rnd53 (2/5), rnd53 (4/5)] := by decide

unseal Rat.add Rat.mul Rat.inv Rat.sub in
/-- C8 (amended): in exact arithmetic the five iterates of 0.1 are exactly
0.2, 0.4, 0.8, 0.4, 0.8; under binary64 evaluation the first three outputs
equal the doubles of the literals 0.2, 0.4, 0.8, but the fourth and fifth are
900719925474099/2^51 = 0.39999999999999991 and
900719925474099/2^50 = 0.79999999999999982, not the doubles of 0.4 and 0.8. -/
theorem C8_float_trajectory :
    tent_map (1/10) 5 2 = [1/5, 2/5, 4/5, 2/5, 4/5]
    ∧ tent_mapF (rnd53 (1/10)) 5 2 =
      [rnd53 (1/5), rnd53 (2/5), rnd53 (4/5),
        Rat.divInt 900719925474099 2251799813685248,
        Rat.divInt 900719925474099 1125899906842624]
    ∧ Rat.divInt 900719925474099 2251799813685248 ≠ rnd53 (2/5)
    ∧ Rat.divInt 900719925474099 1125899906842624 ≠ rnd53 (4/5) := by decide

/-- C9: determinism and purity: the generator-loop relation of the chaotic
maps and the round-loop relation of the fractal builder are functional (at
most one trace from identical arguments), and the embedded functions realise
those traces — so two calls with identical arguments produce identical
output, and the state-free embedding carries nothing across calls. -/
theorem C9_determinism :
    (∀ (f : ℚ → ℚ) (x : ℚ) (n : ℕ) (o1 o2 : List ℚ),
        MapTrace f x n o1 → MapTrace f x n o2 → o1 = o2)
    ∧ (∀ (x mu : ℚ) (steps : ℕ),
        MapTrace (tentStep mu) x steps (tent_map x steps mu))
    ∧ (∀ (x r : ℚ) (steps : ℕ),
        MapTrace (logisticStep r) x steps (logistic_map x steps r))
    ∧ (∀ (b1 b2 : ℚ) (f : List ℚ) (iv : List (ℕ × ℕ)) (n : ℕ)
        (r1 r2 : Except PyErr (List ℚ × List (ℕ × ℕ))),
        BRun b1 b2 f iv n r1 → BRun b1 b2 f iv n r2 → r1 = r2)
    ∧ (∀ (size iters : ℕ) (b1 b2 : ℚ),
        BRun b1 b2 (linspace 0 1 size) [(0, size)] iters
          (barabasiState size iters b1 b2)) :=
  ⟨MapTrace_det,
    fun x mu steps => tent_map_trace x mu steps,
    fun x r steps => logistic_map_trace x r steps,
    fun b1 b2 f iv n r1 r2 h1 h2 => BRun_det b1 b2 f iv n r1 r2 h1 h2,
    fun size iters b1 b2 => barabasiSteps_run b1 b2 iters (linspace 0 1 size) [(0, size)]⟩

/-- Witness for C9: the unique trace of `tent_map(1/3, 1, 2)` is `[2/3]`. -/
theorem C9_witness : tent_map (1/3) 1 2 = [2/3] := by
  have t1 := C9_determinism.2.1 (1/3) 2 1
  have h : tentStep 2 (1/3) = 2/3 := by norm_num [tentStep]
  have t2 : MapTrace (tentStep 2) (1/3) 1 [2/3] := by
    have hs := MapTrace.step (f := tentStep 2) (1/3) 0 [] (MapTrace.done _)
    rwa [h] at hs
  exact C9_determinism.1 (tentStep 2) (1/3) 1 _ _ t1 t2

/-- C10: `b1991` computes its subdivision points by integer floor division —
`[x0, x0+w/4, x0+w/2, x0+w/2+w/4, x0+w]` — in both slope branches; the
consecutive children are monotone and their widths sum to `w`, so they
exactly partition `[x0, x0+w)`; children 1 and 3 always have width `⌊w/4⌋`
while children 2 and 4 jointly absorb the remainder `w mod 4`; and when `4` 
does not divide `w` the four widths are not all equal. -/
theorem C10_quarter_points (b1 b2 y0 h : ℚ) (x0 w : ℕ) :
    (b1991 b1 b2 x0 w y0 h).2 =
      [x0, x0 + w / 4, x0 + w / 2, x0 + w / 2 + w / 4, x0 + w]
    ∧ (x0 ≤ x0 + w / 4 ∧ x0 + w / 4 ≤ x0 + w / 2
        ∧ x0 + w / 2 ≤ x0 + w / 2 + w / 4 ∧ x0 + w / 2 + w / 4 ≤ x0 + w)
    ∧ (x0 + w / 4 - x0) + (x0 + w / 2 - (x0 + w / 4))
        + (x0 + w / 2 + w / 4 - (x0 + w / 2)) + (x0 + w - (x0 + w / 2 + w / 4)) = w
    ∧ x0 + w / 4 - x0 = w / 4
    ∧ x0 + w / 2 + w / 4 - (x0 + w / 2) = w / 4
    ∧ (x0 + w / 2 - (x0 + w / 4)) + (x0 + w - (x0 + w / 2 + w / 4))
        = 2 * (w / 4) + w % 4
    ∧ (w % 4 ≠ 0 →
        ¬(x0 + w / 4 - x0 = x0 + w / 2 - (x0 + w / 4)
          ∧ x0 + w / 2 - (x0 + w / 4) = x0 + w / 2 + w / 4 - (x0 + w / 2)
          ∧ x0 + w / 2 + w / 4 - (x0 + w / 2) = x0 + w - (x0 + w / 2 + w / 4))) :=
  ⟨b1991_nxtp b1 b2 x0 w y0 h, by omega, by omega, by omega, by omega, by omega,
    fun hmod => by omega⟩

/-- Witness for C10 at `w = 6` (remainder 2): widths are 1, 2, 1, 2 — not
all equal, second and fourth absorb the remainder. -/
theorem C10_witness :
    (b1991 1 (1/2) 0 6 0 1).2 = [0, 0 + 6 / 4, 0 + 6 / 2, 0 + 6 / 2 + 6 / 4, 0 + 6]
    ∧ ¬(0 + 6 / 4 - 0 = 0 + 6 / 2 - (0 + 6 / 4)
        ∧ 0 + 6 / 2 - (0 + 6 / 4) = 0 + 6 / 2 + 6 / 4 - (0 + 6 / 2)
        ∧ 0 + 6 / 2 + 6 / 4 - (0 + 6 / 2) = 0 + 6 - (0 + 6 / 2 + 6 / 4)) :=
  ⟨(C10_quarter_points 1 (1/2) 0 1 0 6).1,
    (C10_quarter_points 1 (1/2) 0 1 0 6).2.2.2.2.2.2 (by decide)⟩

/-- C2 counterexample: `fbm` clamps nothing: given an eigendecomposition
whose eigenvalue list contains the slightly negative value `-1/4` (as a
numerically indefinite Γ can produce — the spec itself notes that numerical
noise yields small negatives), the returned sequence is `[NaN]` (`[none]`):
the negative eigenvalue reaches `np.sqrt` unclamped and the NaN is returned
without any signal, refuting both halves of the claim. -/
theorem C2_counterexample :
    fbm 1 (1/2) negEigh idInv oneRandn = .ok [none] := by
  rw [fbm_of_valid 1 (1/2) negEigh idInv oneRandn (by norm_num) (by norm_num)]
  have hs : npSqrt (some (-(1/4) : ℝ)) = none := by
    show (if (-(1/4) : ℝ) < 0 then none else some (Real.sqrt (-(1/4)))) = none
    rw [if_pos (by norm_num)]
  have hd : diagM [some (-(1/4) : ℝ)] = [[some (-(1/4))]] := rfl
  simp only [negEigh, idInv, oneRandn, hd, List.map_cons, List.map_nil, hs]
  show Except.ok (matVec (matMul (matMul [[some 1]] [[none]]) [[some 1]])
      [some 1]) = Except.ok [none]
  have h1 : matMul [[(some 1 : F)]] [[none]] = [[none]] := by
    show [List.map (dotF [some 1]) ([[none]] : List (List F)).transpose] = [[none]]
    have : (([[none]] : List (List F))).transpose = [[none]] := rfl
    rw [this]
    show [[dotF [some 1] [none]]] = [[none]]
    rw [show dotF [(some 1 : F)] [none] = none from rfl]
  rw [h1]
  have h2 : matMul [[(none : F)]] [[some 1]] = [[none]] := by
    show [List.map (dotF [none]) ([[some 1]] : List (List F)).transpose] = [[none]]
    have : (([[some 1]] : List (List F))).transpose = [[some 1]] := rfl
    rw [this]
    show [[dotF [none] [some 1]]] = [[none]]
    rw [show dotF [(none : F)] [some 1] = none from rfl]
  rw [h2]
  show Except.ok [dotF [none] [some 1]] = Except.ok [none]
  rw [show dotF [(none : F)] [some 1] = none from rfl]

/-- C2 (amended): `fbm` applies `np.sqrt` directly to the raw eigenvalues —
a negative eigenvalue (however slight) is mapped to NaN (`none`), never
clamped to zero, so the NaN enters `sigma` and the output; only nonnegative
eigenvalues receive a real square root. -/
theorem C2_no_clamping (x : ℝ) (w : List F) (hx : x < 0) (hw : some x ∈ w) :
    npSqrt (some x) = none
    ∧ none ∈ w.map npSqrt
    ∧ (∀ y : ℝ, 0 ≤ y → npSqrt (some y) = some (Real.sqrt y)) := by
  have h1 : npSqrt (some x) = none := by
    show (if x < 0 then none else some (Real.sqrt x)) = none
    rw [if_pos hx]
  refine ⟨h1, List.mem_map.mpr ⟨some x, hw, h1⟩, fun y hy => ?_⟩
  show (if y < 0 then none else some (Real.sqrt y)) = some (Real.sqrt y)
  rw [if_neg (not_lt.mpr hy)]

/-- Witness for C2 (amended) at eigenvalue `-1` in the list `[-1]`. -/
theorem C2_witness :
    npSqrt (some (-1 : ℝ)) = none ∧ none ∈ [some (-1 : ℝ)].map npSqrt :=
  ⟨(C2_no_clamping (-1) [some (-1)] (by norm_num) (by simp)).1,
    (C2_no_clamping (-1) [some (-1)] (by norm_num) (by simp)).2.1⟩

/-- C4: `fbm(n, H)` and `fgn(n, H)` fail with the `assert`'s
InvalidParameter — raised before the covariance matrix or the decomposition
is touched — exactly when `H ≤ 0` or `H ≥ 1`; and for every `n > 0` and `H`
in `(0, 1)` both return a float sequence of exactly length `n` (using the
numpy-guaranteed square shape of the eigenvector matrix). -/
theorem C4_parameter_check (n : ℕ) (H : ℝ)
    (eigh : List (List F) → List F × List (List F))
    (inv : List (List F) → List (List F)) (randn : ℕ → List F)
    (hP1 : (eigh (gammaM n H)).2.length = n)
    (hP2 : (eigh (gammaM (n + 1) H)).2.length = n + 1)
    (hn : 0 < n) :
    ((H ≤ 0 ∨ 1 ≤ H) ↔ fbm n H eigh inv randn = .error .invalidParameter)
    ∧ ((H ≤ 0 ∨ 1 ≤ H) ↔ fgn n H eigh inv randn = .error .invalidParameter)
    ∧ (0 < H → H < 1 → ∃ lb, fbm n H eigh inv randn = .ok lb ∧ lb.length = n)
    ∧ (0 < H → H < 1 → ∃ lg, fgn n H eigh inv randn = .ok lg ∧ lg.length = n) := by
  refine ⟨⟨fun hH => fbm_of_invalid n H eigh inv randn hH, fun herr => ?_⟩,
    ⟨fun hH => ?_, fun herr => ?_⟩, fun h0 h1 => fbm_ok_length n H eigh inv randn hP1 h0 h1,
    fun h0 h1 => ?_⟩
  · by_contra hcon
    push_neg at hcon
    obtain ⟨lb, hlb, _⟩ := fbm_ok_length n H eigh inv randn hP1 hcon.1 hcon.2
    rw [hlb] at herr
    exact Except.noConfusion herr
  · rw [fgn, fbm_of_invalid (n + 1) H eigh inv randn hH]
    rfl
  · by_contra hcon
    push_neg at hcon
    obtain ⟨lb, hlb, _⟩ := fbm_ok_length (n + 1) H eigh inv randn hP2 hcon.1 hcon.2
    rw [fgn, hlb] at herr
    exact Except.noConfusion herr
  · obtain ⟨lb, hlb, hlen⟩ := fbm_ok_length (n + 1) H eigh inv randn hP2 h0 h1
    refine ⟨npDiff lb, by rw [fgn, hlb]; rfl, ?_⟩
    rw [npDiff_length, hlen]
    omega

/-- Witness for C4 at `n = 1`, `H = 1/2` with concrete injected
collaborators: the returned sequence has length 1. -/
theorem C4_witness :
    (fbm 1 (1/2) oneEigh idInv oneRandn).toOption.map List.length = some 1 := by
  obtain ⟨lb, hlb, hlen⟩ :=
    (C4_parameter_check 1 (1/2) oneEigh idInv oneRandn
      (by simp [oneEigh, gammaM_length]) (by simp [oneEigh, gammaM_length])
      (by omega)).2.2.1 (by norm_num) (by norm_num)
  rw [hlb]
  simp [Except.toOption, hlen]

/-- C5: `fgn(n, H)` is literally `np.diff` of an `fbm(n+1, H)` realization —
the same injected collaborators give the same realization, the first conjunct
is the definitional equality (no independent numeric logic) — and for
`n > 0`, `H` in `(0,1)` it is the length-`n` difference sequence of the
length-`(n+1)` fbm output. -/
theorem C5_fgn_diff (n : ℕ) (H : ℝ)
    (eigh : List (List F) → List F × List (List F))
    (inv : List (List F) → List (List F)) (randn : ℕ → List F)
    (hP : (eigh (gammaM (n + 1) H)).2.length = n + 1)
    (hn : 0 < n) (h0 : 0 < H) (h1 : H < 1) :
    fgn n H eigh inv randn = (fbm (n + 1) H eigh inv randn).map npDiff
    ∧ ∃ lb, fbm (n + 1) H eigh inv randn = .ok lb
        ∧ fgn n H eigh inv randn = .ok (npDiff lb)
        ∧ lb.length = n + 1 ∧ (npDiff lb).length = n := by
  refine ⟨rfl, ?_⟩
  obtain ⟨lb, hlb, hlen⟩ := fbm_ok_length (n + 1) H eigh inv randn hP h0 h1
  exact ⟨lb, hlb, by rw [fgn, hlb]; rfl, hlen, by rw [npDiff_length, hlen]; omega⟩


/-- Witness for C5 at `n = 1`, `H = 1/2` with concrete injected
collaborators: the difference sequence has length 1. -/
theorem C5_witness :
    (fgn 1 (1/2) oneEigh idInv oneRandn).toOption.map List.length = some 1 := by
  obtain ⟨lb, _, hfgn, _, hdlen⟩ :=
    (C5_fgn_diff 1 (1/2) oneEigh idInv oneRandn
      (by simp [oneEigh, gammaM_length]) (by omega) (by norm_num) (by norm_num)).2
  rw [hfgn]
  simp [Except.toOption, hdlen]

end NoldsDatasets
